import Mathlib

namespace HandyGemini

/-!
Verification of the HandyGemini session orchestrator against its
natural-language specification.  The Rust sources under `src-tauri/src`
(`actions.rs`, `gemini_client.rs`, `utils.rs`,
`managers/gemini_conversation.rs`) are shallowly embedded as pure Lean
functions over explicit environment records: every external collaborator
(audio session, transcription engine, HTTP client, OpenCC converter,
LLM provider, OS screenshot tools) is an oracle field of the environment,
and the control flow of each embedded function is translated branch by
branch from the source.  Byte-level encodings (base64, WAV/PCM) are kept
abstract: payloads carry the raw data they encode.
-/

/-! ## List/string utilities

`gemini_client.rs` parses the assistant reply with Rust's `str::find`
and slicing; `actions.rs` tests substrings of the shortcut token.  We
model UTF-8 strings as `List Char` and implement the first-occurrence
substring search directly, with correctness lemmas relating it to
explicit `++` decompositions.
-/

/-- `leadsWith hay needle` : does `hay` start with `needle`?
(Models Rust `str::starts_with`.) -/
def leadsWith : List Char → List Char → Bool
  | _, [] => true
  | [], _ :: _ => false
  | h :: hs, n :: ns => h == n && leadsWith hs ns

/-- First-occurrence substring search: `splitFirst hay needle = some (a, b)`
means `hay = a ++ needle ++ b` with `a` shortest possible.  Models Rust
`str::find` together with the slicing around the found index. -/
def splitFirst : List Char → List Char → Option (List Char × List Char)
  | [], needle => if needle.isEmpty then some ([], []) else none
  | h :: t, needle =>
    if leadsWith (h :: t) needle then some ([], (h :: t).drop needle.length)
    else
      match splitFirst t needle with
      | some (a, b) => some (h :: a, b)
      | none => none

/-- `contains_sub hay needle` : does `needle` occur in `hay`?
(Models Rust `str::contains`.) -/
def contains_sub (hay needle : List Char) : Bool :=
  (splitFirst hay needle).isSome

/-- Rust `str::trim` (whitespace is modelled by `Char.isWhitespace`). -/
def trimRightL (l : List Char) : List Char :=
  (l.reverse.dropWhile Char.isWhitespace).reverse

/-- Rust `str::trim`, left part. -/
def trimLeftL (l : List Char) : List Char :=
  l.dropWhile Char.isWhitespace

/-- Rust `str::trim`: drop whitespace from both ends. -/
def trimL (l : List Char) : List Char :=
  trimLeftL (trimRightL l)

/-! ## Reply parsing (`gemini_client.rs`, lines 362-391)

When audio was sent with empty text, `ask_gemini` looks for the literal
markers `Transcription:` and `Response:` in the reply and splits it into
an extracted transcription and an answer. -/

/-- The literal marker `Transcription:`. -/
def markerT : List Char := "Transcription:".toList

/-- The literal marker `\n\nResponse:` (double newline variant). -/
def markerRespDouble : List Char := "\n\nResponse:".toList

/-- The literal marker `\nResponse:` (single newline variant). -/
def markerRespSingle : List Char := "\nResponse:".toList

/-- Translation of the reply-splitting logic of `ask_gemini`
(`gemini_client.rs` 362-391): find the first `Transcription:`; from there
look for `\n\nResponse:` and, failing that, `\nResponse:`; slice out the
transcription between the markers and the answer after `Response:`,
trimming both; if either marker is missing, the whole reply is the
answer and no transcription is extracted. -/
def parse_audio_reply (r : List Char) : Option (List Char) × List Char :=
  match splitFirst r markerT with
  | none => (none, r)
  | some (_, rest) =>
    match splitFirst (markerT ++ rest) markerRespDouble with
    | some (a, c) => (some (trimL (a.drop markerT.length)), trimL c)
    | none =>
      match splitFirst (markerT ++ rest) markerRespSingle with
      | some (a, c) => (some (trimL (a.drop markerT.length)), trimL c)
      | none => (none, r)

/-! ## Data model (`settings.rs` surface used by `actions.rs`)

Only the fields the orchestrator reads are modelled.  Provider/prompt
lookups mirror the `HashMap`/`Vec` accesses of
`maybe_post_process_transcription`. -/

/-- A post-processing prompt (`settings.post_process_prompts` element). -/
structure PromptEntry where
  id : String
  prompt : String
deriving DecidableEq

/-- A post-processing provider (only the `id` field is read). -/
structure Provider where
  id : String
deriving DecidableEq

/-- `settings.screenshot_mode`. -/
inductive ScreenshotMode
  | activeWindow
  | fullScreen
deriving DecidableEq

/-- The slice of `AppSettings` read by the embedded functions.
`post_process_provider` models `settings.active_post_process_provider()`. -/
structure AppSettings where
  always_on_microphone : Bool := false
  gemini_enabled : Bool := false
  gemini_api_key : String := ""
  gemini_send_audio : Bool := false
  gemini_model : String := ""
  selected_language : String := ""
  post_process_enabled : Bool := false
  post_process_provider : Option Provider := none
  post_process_models : List (String × String) := []
  post_process_api_keys : List (String × String) := []
  post_process_selected_prompt_id : Option String := none
  post_process_prompts : List PromptEntry := []
  screenshot_mode : ScreenshotMode := ScreenshotMode.fullScreen
deriving DecidableEq

/-- `HashMap::get(&key).cloned()` over an association list. -/
def assocGet (m : List (String × String)) (k : String) : Option String :=
  (m.find? (fun p => p.1 == k)).map (fun p => p.2)

/-- Modelled from the spec: the designated on-device provider identifier
(`APPLE_INTELLIGENCE_PROVIDER_ID` lives in `settings.rs`, which is not
among the reviewed sources; only its role as a distinguished id
matters). -/
def APPLE_INTELLIGENCE_PROVIDER_ID : String := "apple_intelligence"

/-! ## Post-Processing Chain (`actions.rs` 245-423 and 681-711) -/

/-- `ferrous_opencc::config::BuiltinConfig`, the two configurations used. -/
inductive BuiltinConfig
  | tw2sp
  | s2twp
deriving DecidableEq

/-- Oracle for `OpenCC::from_config`: `none` models a constructor error,
`some f` a converter whose `convert` is `f`. -/
structure OpenCCEnv where
  from_config : BuiltinConfig → Option (String → String)

/-- Oracles for the post-processing providers: platform flag for the
`cfg(all(target_os = "macos", target_arch = "aarch64"))` gate, the Apple
Intelligence availability check and `process_text` call, and the generic
`llm_client::send_chat_completion` call. -/
structure PostProcessEnv where
  platform_macos_aarch64 : Bool
  apple_available : Bool
  apple_process : String → Int → Except String String
  llm_send_chat_completion : Provider → String → String → String → Except String (Option String)

/-- Translation of `maybe_convert_chinese_variant` (`actions.rs` 381-423):
convert only when the selected language is exactly `zh-Hans` or `zh-Hant`,
using `Tw2sp` (traditional → simplified) for `zh-Hans` and `S2twp`
(simplified → traditional) for `zh-Hant`; converter-construction failure
falls back to `none`. -/
def maybe_convert_chinese_variant (env : OpenCCEnv) (settings : AppSettings)
    (transcription : String) : Option String :=
  let is_simplified := settings.selected_language == "zh-Hans"
  let is_traditional := settings.selected_language == "zh-Hant"
  if !is_simplified && !is_traditional then none
  else
    let config := if is_simplified then BuiltinConfig.tw2sp else BuiltinConfig.s2twp
    match env.from_config config with
    | some converter => some (converter transcription)
    | none => none

/-- The provider-call tail of `maybe_post_process_transcription`
(`actions.rs` 312-378): the Apple Intelligence special case (availability
check, token-limit parse, empty-result check) or the generic chat
completion, each mapping every failure to `none`. -/
def provider_call (env : PostProcessEnv) (settings : AppSettings)
    (provider : Provider) (model processed_prompt : String) : Option String :=
  if provider.id == APPLE_INTELLIGENCE_PROVIDER_ID then
    if env.platform_macos_aarch64 then
      if !env.apple_available then none
      else
        let token_limit := (model.trim.toInt?).getD 0
        match env.apple_process processed_prompt token_limit with
        | Except.ok result => if result.trim.isEmpty then none else some result
        | Except.error _ => none
    else none
  else
    let api_key := (assocGet settings.post_process_api_keys provider.id).getD ""
    match env.llm_send_chat_completion provider api_key model processed_prompt with
    | Except.ok (some content) => some content
    | Except.ok none => none
    | Except.error _ => none

/-- Translation of `maybe_post_process_transcription` (`actions.rs`
245-379): each missing precondition returns `none`; otherwise the
`${output}` placeholder is substituted and the provider is called. -/
def maybe_post_process_transcription (env : PostProcessEnv) (settings : AppSettings)
    (transcription : String) : Option String :=
  if !settings.post_process_enabled then none
  else
    match settings.post_process_provider with
    | none => none
    | some provider =>
      let model := (assocGet settings.post_process_models provider.id).getD ""
      if model.trim.isEmpty then none
      else
        match settings.post_process_selected_prompt_id with
        | none => none
        | some selected_prompt_id =>
          match settings.post_process_prompts.find? (fun p => p.id == selected_prompt_id) with
          | none => none
          | some promptEntry =>
            let prompt := promptEntry.prompt
            if prompt.trim.isEmpty then none
            else
              let processed_prompt := prompt.replace "${output}" transcription
              provider_call env settings provider model processed_prompt

/-- Translation of the post-processing block of `TranscribeAction::stop`
(`actions.rs` 681-711): first try the Chinese-variant conversion, else
the LLM rewrite (recording the prompt used), else keep the transcription.
Returns (final text, post-processed text for history, prompt for
history). -/
def post_process_chain (oenv : OpenCCEnv) (penv : PostProcessEnv)
    (settings : AppSettings) (transcription : String) :
    String × Option String × Option String :=
  match maybe_convert_chinese_variant oenv settings transcription with
  | some converted_text => (converted_text, some converted_text, none)
  | none =>
    match maybe_post_process_transcription penv settings transcription with
    | some processed_text =>
      let prompt_used := settings.post_process_selected_prompt_id.bind
        (fun prompt_id =>
          (settings.post_process_prompts.find? (fun p => p.id == prompt_id)).map
            (fun p => p.prompt))
      (processed_text, some processed_text, prompt_used)
    | none => (transcription, none, none)

/-! ## Conversation Context (`managers/gemini_conversation.rs`)

The manager guards a `Vec<ConversationMessage>` with a mutex; the
embedding is the pure content of each operation on the guarded list. -/

/-- `ConversationMessage { role, text }`. -/
structure ConvMsg where
  role : String
  text : String
deriving DecidableEq

/-- `GeminiConversationManager::add_user_message`. -/
def add_user_message (conversation : List ConvMsg) (text : String) : List ConvMsg :=
  conversation ++ [{ role := "user", text := text }]

/-- `GeminiConversationManager::add_model_message`. -/
def add_model_message (conversation : List ConvMsg) (text : String) : List ConvMsg :=
  conversation ++ [{ role := "model", text := text }]

/-- `GeminiConversationManager::get_history` (returns a copy). -/
def get_history (conversation : List ConvMsg) : List ConvMsg :=
  conversation

/-! ## Context Capture (`actions.rs` 31-240)

The osascript geometry probe, the `screencapture` process and the
`screenshots` crate are oracles; `window_bounds` models a successful
probe as the list of integers parsed from its output (so a wrong field
count is a `some` with `length ≠ 4`), and `none` models every probe
failure (process error, `ERROR:` output, non-success status). -/

/-- One `screenshots::Screen`: `capture_result` is the `capture()`
outcome, whose `png_result` is the `to_png` outcome. -/
structure ScreenImage where
  png_result : Option (List Nat)
deriving DecidableEq

/-- A screen with its capture oracle. -/
structure Screen where
  capture_result : Option ScreenImage
deriving DecidableEq

/-- Oracles for `capture_screenshot` and its helpers. -/
structure CaptureEnv where
  screens : Option (List Screen)
  window_bounds : Option (List Int)
  region_capture_ok : Int → Int → Int → Int → Bool
  region_file : Option (List Nat)

/-- Translation of `capture_full_screen_screenshot` (`actions.rs` 53-84):
`Screen::all()` failure, an empty screen list, a capture failure or a PNG
conversion failure each yield `none`. -/
def capture_full_screen_screenshot (env : CaptureEnv) : Option (List Nat) :=
  match env.screens with
  | none => none
  | some screens =>
    match screens.head? with
    | none => none
    | some screen =>
      match screen.capture_result with
      | some image => image.png_result
      | none => none

/-- Translation of `capture_active_window_macos` (`actions.rs` 88-229):
geometry failure, a bounds list that is not four integers, inverted or
degenerate bounds, a failed `screencapture` run, or an unreadable output
file each fall back to the full-screen capture. -/
def capture_active_window_macos (env : CaptureEnv) : Option (List Nat) :=
  match env.window_bounds with
  | none => capture_full_screen_screenshot env
  | some bounds =>
    match bounds with
    | [left, top, right, bottom] =>
      if right ≤ left ∨ bottom ≤ top then capture_full_screen_screenshot env
      else
        let width := right - left
        let height := bottom - top
        if env.region_capture_ok left top width height then
          match env.region_file with
          | some data => some data
          | none => capture_full_screen_screenshot env
        else capture_full_screen_screenshot env
    | _ => capture_full_screen_screenshot env

/-- Translation of `capture_screenshot` (`actions.rs` 31-50):
`platform_macos` models the `cfg(target_os = "macos")` gate; on other
platforms the active-window mode falls back to full screen. -/
def capture_screenshot (env : CaptureEnv) (settings : AppSettings)
    (platform_macos : Bool) : Option (List Nat) :=
  match settings.screenshot_mode with
  | ScreenshotMode.activeWindow =>
    if platform_macos then capture_active_window_macos env
    else capture_full_screen_screenshot env
  | ScreenshotMode.fullScreen => capture_full_screen_screenshot env

/-- Translation of `should_capture_screenshot` (`actions.rs` 232-240). -/
def should_capture_screenshot (shortcut_str : String) : Bool :=
  if contains_sub shortcut_str.toList "|SCREENSHOT".toList then true
  else
    let shortcut_lower := shortcut_str.toList.map Char.toLower
    contains_sub shortcut_lower "ctrl".toList || contains_sub shortcut_lower "control".toList

/-! ## AI Assistant Dispatch (`gemini_client.rs`)

The HTTP round trip and the IP lookup are oracles; request parts are
built faithfully, with the base64/WAV byte encodings kept abstract (a
payload carries the data it encodes). -/

/-- The payload of an `inline_data` part; base64/WAV encoding is kept
abstract. -/
inductive PayloadData
  | imageB64 (bytes : List Nat)
  | audioWav (samples : List Int) (sample_rate : Nat)
deriving DecidableEq

/-- `InlineData { mime_type, data }`. -/
structure InlineData where
  mime_type : String
  data : PayloadData
deriving DecidableEq

/-- `GeminiPart { text, inline_data }`. -/
structure GeminiPart where
  text : Option String := none
  inline_data : Option InlineData := none
deriving DecidableEq

/-- A part of a response candidate (`Part { text }`). -/
structure RPart where
  text : Option String
deriving DecidableEq

/-- A response candidate's content (`Candidate.content.parts`). -/
structure GCandidate where
  parts : List RPart
deriving DecidableEq

/-- The decoded HTTP response body (`GeminiResponse`). -/
structure GeminiHttpResponse where
  candidates : List GCandidate
deriving DecidableEq

/-- `GeminiResponseData { transcription, answer }`. -/
structure GeminiResponseData where
  transcription : Option String
  answer : String
deriving DecidableEq

/-- Network side effects of `ask_gemini`, in order of issue: the cached
public-IP lookup, then the POST of the request (model and contents). -/
inductive NetEvent
  | ipLookup
  | httpPost (model : String) (contents : List (String × List GeminiPart))
deriving DecidableEq

/-- Oracles for `ask_gemini`: the IP-lookup result, the HTTP outcome
(request failure, non-success status and JSON-decoding failure collapsed
into the error string the code builds), and the settings/platform read
for the screenshot-instruction gate. -/
structure AskEnv where
  ip_result : Option String
  http_result : Except String GeminiHttpResponse
  screenshot_mode : ScreenshotMode
  platform_macos : Bool

/-- Translation of `map_model_name` (`gemini_client.rs` 90-97). -/
def map_model_name (model : String) : String :=
  if model == "gemini-3-pro" then "gemini-3-pro"
  else if model == "gemini-3-flash" then "gemini-3-flash-preview"
  else model

/-- The location-context sentence appended when the public IP is known
(`gemini_client.rs` 119-123). -/
def location_context_of (user_ip : Option String) : String :=
  match user_ip with
  | some ip =>
    "\n\n[Context: The user's public IP address is " ++ ip ++
    ". Please use this IP address to determine the user's approximate location (city and region) and personalize your responses accordingly, such as providing location-specific information, prices in local currency, or regional context when relevant.]"
  | none => ""

/-- The screenshot-framing instruction (`gemini_client.rs` 161). -/
def screenshot_instruction : String :=
  "When analyzing the screenshot, focus on the biggest canvas area only. Ignore UI elements, menus, and sidebars."

/-- The response-format instruction sent with text-free audio
(`gemini_client.rs` 245). -/
def audio_format_instruction : String :=
  "Please transcribe the audio first, then provide your response. Format your response as:\n\nTranscription: [the transcribed text]\n\nResponse: [your answer]"

/-- MIME sniffing from magic bytes (`gemini_client.rs` 207-214). -/
def detect_mime (image_bytes : List Nat) : String :=
  if image_bytes.take 8 = [0x89, 0x50, 0x4E, 0x47, 0x0D, 0x0A, 0x1A, 0x0A] then "image/png"
  else if image_bytes.take 3 = [0xFF, 0xD8, 0xFF] then "image/jpeg"
  else "image/png"

/-- Text extraction from the first candidate
(`gemini_client.rs` 329-357). -/
def extract_response_text (resp : GeminiHttpResponse) : Option String :=
  match resp.candidates.head? with
  | none => none
  | some c =>
    let texts := c.parts.filterMap (fun p => p.text)
    if texts.isEmpty then none else some (String.intercalate "\n" texts)

/-- Translation of `ask_gemini` (`gemini_client.rs` 100-401).  Returns
the result together with the ordered list of network side effects.  The
empty-key guard precedes both the IP lookup and the POST; the part list
is built exactly as in the source (text/instruction part with one-shot
location-context attachment, image parts, audio part, audio-format
instruction); the reply is split by `parse_audio_reply` only when audio
was sent with empty text. -/
def ask_gemini (env : AskEnv) (text model api_key : String)
    (context_images : Option (List (List Nat)))
    (context_audio : Option (List Int))
    (sample_rate : Option Nat)
    (conversation_history : Option (List ConvMsg)) :
    Except String GeminiResponseData × List NetEvent :=
  if api_key.isEmpty then (Except.error "Gemini API key is not configured", [])
  else
    let api_model := map_model_name model
    let user_ip := env.ip_result
    let events : List NetEvent := [NetEvent.ipLookup]
    let location_context := location_context_of user_ip
    let has_images := context_images.isSome
    let is_full_screen :=
      if has_images then
        match env.screenshot_mode with
        | ScreenshotMode.fullScreen => true
        | ScreenshotMode.activeWindow => !env.platform_macos
      else false
    let text_parts : List GeminiPart × Bool :=
      if !text.isEmpty then
        let base :=
          if has_images && is_full_screen then screenshot_instruction ++ "\n\n" ++ text
          else text
        if !location_context.isEmpty then
          ([{ text := some (base ++ location_context) }], true)
        else ([{ text := some base }], false)
      else if has_images && is_full_screen then
        if !location_context.isEmpty then
          ([{ text := some (screenshot_instruction ++ location_context) }], true)
        else ([{ text := some screenshot_instruction }], false)
      else if !location_context.isEmpty && context_audio.isNone then
        ([{ text := some location_context }], false)
      else ([], false)
    let parts0 := text_parts.1
    let location_context_added := text_parts.2
    if parts0.isEmpty && context_audio.isNone && context_images.isNone then
      (Except.error "At least one of text, audio, or images must be provided", events)
    else
      let image_parts : List GeminiPart :=
        (context_images.getD []).map (fun image_bytes =>
          { inline_data := some { mime_type := detect_mime image_bytes,
                                  data := PayloadData.imageB64 image_bytes } })
      let has_audio := context_audio.isSome
      let audio_parts : List GeminiPart :=
        match context_audio with
        | some audio =>
          [{ inline_data := some { mime_type := "audio/wav",
                                   data := PayloadData.audioWav audio (sample_rate.getD 16000) } }]
        | none => []
      let instr_parts : List GeminiPart :=
        if has_audio && text.isEmpty then
          let instruction :=
            if !location_context.isEmpty && !location_context_added then
              audio_format_instruction ++ location_context
            else audio_format_instruction
          [{ text := some instruction }]
        else []
      let parts := parts0 ++ image_parts ++ audio_parts ++ instr_parts
      let contents : List (String × List GeminiPart) :=
        ((conversation_history.getD []).map
          (fun msg => (msg.role, [({ text := some msg.text } : GeminiPart)]))) ++
        [("user", parts)]
      let events := events ++ [NetEvent.httpPost api_model contents]
      match env.http_result with
      | Except.error e => (Except.error e, events)
      | Except.ok resp =>
        match extract_response_text resp with
        | none =>
          (Except.error ("No text in Gemini response. Candidates: " ++
            toString resp.candidates.length ++ ", Parts in first candidate: " ++
            toString ((resp.candidates.head?.map (fun c => c.parts.length)).getD 0)), events)
        | some response_text =>
          let pr :=
            if has_audio && text.isEmpty then parse_audio_reply response_text.toList
            else (none, response_text.toList)
          (Except.ok { transcription := pr.1.map (fun l => String.mk l),
                       answer := String.mk pr.2 }, events)

/-! ## The stop continuation (`actions.rs` 540-925)

`TranscribeAction::stop` spawns one asynchronous continuation; its
observable outcome is collected in a `StopOutcome` record.  The remote
`ask_gemini` round trip is an oracle (its own internals are verified
above); `gemini_call` maps the argument tuple of each call site to its
outcome.  UI-only effects (tray, overlay) are omitted from the outcome
record; the `paste` closure scheduled on the main thread is modelled as
the pasted text. -/

/-- The argument tuple of an `ask_gemini` call site in
`TranscribeAction::stop`. -/
structure GeminiCallArgs where
  text : String
  model : String
  api_key : String
  images : Option (List (List Nat))
  audio : Option (List Int)
  sample_rate : Option Nat
  history : Option (List ConvMsg)
deriving DecidableEq

/-- Observable outcome of the spawned stop continuation:
which `ask_gemini` call was issued (if any), whether the local
transcription engine ran, the history entry saved
(transcript, post-processed text, prompt), the pasted text, the popup
text, the Conversation Context after the continuation and its spawned
subtasks settle, and the final Toggle State Table entry for the
binding. -/
structure StopOutcome where
  asked : Option GeminiCallArgs := none
  transcribe_invoked : Bool := false
  history_saved : Option (String × Option String × Option String) := none
  pasted : Option String := none
  popup : Option String := none
  conv_final : List ConvMsg := []
  toggle_entry : Bool := false

/-- Environment of the stop continuation.  Settings are read three times
(`actions.rs` 520, 565, 682) and may differ between reads;
`prior_toggle` is the Toggle State Table entry for the binding when the
continuation starts; `samples` is the `stop_recording` result;
`transcribe` and `gemini_call` are the engine and remote oracles. -/
structure StopEnv where
  settings_stop : AppSettings
  settings_audio_check : AppSettings
  settings_post : AppSettings
  samples : Option (List Int)
  screenshot_result : Option (List Nat)
  transcribe : List Int → Except String String
  gemini_call : GeminiCallArgs → Except String GeminiResponseData
  conv_history : List ConvMsg
  prior_toggle : Bool
  opencc : OpenCCEnv
  ppenv : PostProcessEnv

/-- `using_gemini_audio` / `send_audio_directly`
(`actions.rs` 521-523 and 566-568). -/
def using_gemini_audio_flag (s : AppSettings) : Bool :=
  s.gemini_enabled && !s.gemini_api_key.isEmpty && s.gemini_send_audio

/-- `gemini_enabled` (`actions.rs` 733). -/
def gemini_enabled_flag (s : AppSettings) : Bool :=
  s.gemini_enabled && !s.gemini_api_key.isEmpty

/-- `format!("**Q:** {}\n\n**A:** {}", q, a)`. -/
def format_qa (q a : String) : String :=
  "**Q:** " ++ q ++ "\n\n**A:** " ++ a

/-- The screenshot taken at the top of the continuation
(`actions.rs` 544-549). -/
def stop_screenshot (env : StopEnv) (shortcut_str : String) : Option (List Nat) :=
  if should_capture_screenshot shortcut_str then env.screenshot_result else none

/-- The `ask_gemini` argument tuple of the direct assistant-audio route
(`actions.rs` 603-612): empty text, the raw samples at 16 kHz, the
optional screenshot and the conversation history, under the re-read
settings. -/
def direct_args (env : StopEnv) (shortcut_str : String) (samples : List Int) :
    GeminiCallArgs :=
  { text := "", model := env.settings_audio_check.gemini_model,
    api_key := env.settings_audio_check.gemini_api_key,
    images := (stop_screenshot env shortcut_str).map (fun img => [img]),
    audio := some samples, sample_rate := some 16000,
    history := some (get_history env.conv_history) }

/-- The `ask_gemini` argument tuple of the post-transcription audio path
(`actions.rs` 765-774). -/
def audio_args (env : StopEnv) (shortcut_str : String) (samples : List Int) :
    GeminiCallArgs :=
  { text := "", model := env.settings_post.gemini_model,
    api_key := env.settings_post.gemini_api_key,
    images := (stop_screenshot env shortcut_str).map (fun img => [img]),
    audio := some samples, sample_rate := some 16000,
    history := some (get_history env.conv_history) }

/-- The `ask_gemini` argument tuple of the post-transcription text path
(`actions.rs` 832-841). -/
def text_args (env : StopEnv) (shortcut_str : String) (transcription : String) :
    GeminiCallArgs :=
  { text := transcription, model := env.settings_post.gemini_model,
    api_key := env.settings_post.gemini_api_key,
    images := (stop_screenshot env shortcut_str).map (fun img => [img]),
    audio := none, sample_rate := none,
    history := some (get_history env.conv_history) }

/-- Translation of the spawned continuation of `TranscribeAction::stop`
(`actions.rs` 540-925), branch by branch: optional screenshot capture;
`stop_recording`; the direct assistant-audio route (which returns early,
before the toggle-clearing statement at 921-924); otherwise local
transcription, the post-processing chain, history persistence, and the
assistant/paste fork; finally the toggle-table clear on every path that
reaches the end of the async block. -/
def transcribe_stop_continuation (env : StopEnv) (shortcut_str : String) : StopOutcome :=
  match env.samples with
  | none =>
    { conv_final := env.conv_history, toggle_entry := false }
  | some samples =>
    if using_gemini_audio_flag env.settings_audio_check then
      match env.gemini_call (direct_args env shortcut_str samples) with
      | Except.ok resp =>
        let question_text := resp.transcription.getD "Audio transcription"
        { asked := some (direct_args env shortcut_str samples),
          transcribe_invoked := false,
          history_saved := some ("", none, none), pasted := none,
          popup := some (format_qa question_text resp.answer),
          conv_final := add_model_message
            (add_user_message (get_history env.conv_history) question_text) resp.answer,
          toggle_entry := env.prior_toggle }
      | Except.error _ =>
        { asked := some (direct_args env shortcut_str samples),
          transcribe_invoked := false,
          history_saved := some ("", none, none), pasted := none, popup := none,
          conv_final := get_history env.conv_history,
          toggle_entry := env.prior_toggle }
    else
      match env.transcribe samples with
      | Except.error _ =>
        { transcribe_invoked := true, conv_final := env.conv_history,
          toggle_entry := false }
      | Except.ok transcription =>
        if transcription.isEmpty then
          { transcribe_invoked := true, conv_final := env.conv_history,
            toggle_entry := false }
        else
          let chain := post_process_chain env.opencc env.ppenv env.settings_post transcription
          let hist := some (transcription, chain.2.1, chain.2.2)
          if gemini_enabled_flag env.settings_post then
            if env.settings_post.gemini_send_audio then
              match env.gemini_call (audio_args env shortcut_str samples) with
              | Except.ok resp =>
                let question_text := resp.transcription.getD transcription
                { asked := some (audio_args env shortcut_str samples),
                  transcribe_invoked := true,
                  history_saved := hist, pasted := none,
                  popup := some (format_qa question_text resp.answer),
                  conv_final := add_model_message
                    (add_user_message (get_history env.conv_history) question_text) resp.answer,
                  toggle_entry := false }
              | Except.error _ =>
                { asked := some (audio_args env shortcut_str samples),
                  transcribe_invoked := true,
                  history_saved := hist, pasted := none, popup := none,
                  conv_final := get_history env.conv_history, toggle_entry := false }
            else
              match env.gemini_call (text_args env shortcut_str transcription) with
              | Except.ok resp =>
                { asked := some (text_args env shortcut_str transcription),
                  transcribe_invoked := true,
                  history_saved := hist, pasted := none,
                  popup := some (format_qa transcription resp.answer),
                  conv_final := add_model_message
                    (add_user_message (get_history env.conv_history) transcription) resp.answer,
                  toggle_entry := false }
              | Except.error _ =>
                { asked := some (text_args env shortcut_str transcription),
                  transcribe_invoked := true,
                  history_saved := hist, pasted := none, popup := none,
                  conv_final := add_user_message (get_history env.conv_history) transcription,
                  toggle_entry := false }
          else
            { transcribe_invoked := true, history_saved := hist,
              pasted := some chain.1, popup := none,
              conv_final := env.conv_history, toggle_entry := false }

/-! ## Cancellation (`utils.rs` 17-45) -/

/-- `tray::TrayIconState`. -/
inductive TrayIconState
  | idle
  | recording
  | transcribing
deriving DecidableEq

/-- The shared state touched by `cancel_current_operation`:
`ManagedToggleState`, the audio manager's recording flag, the tray icon
and the overlay. -/
structure AppState where
  active_toggles : List (String × Bool)
  recording_active : Bool
  tray : TrayIconState
  overlay_visible : Bool
deriving DecidableEq

/-- Side effects of `cancel_current_operation`, in order of issue. -/
inductive CancelEv
  | unregisterCancelShortcut
  | cancelRecording
  | maybeUnloadModel
deriving DecidableEq

/-- Translation of `cancel_current_operation` (`utils.rs` 17-45):
unregister the transient cancel shortcut, set every toggle entry to
false, cancel the recording, set the tray to idle, hide the overlay,
and maybe unload the model.  (The toggle-table mutex is modelled as
always acquired; the embedding is sequential.) -/
def cancel_current_operation (s : AppState) : AppState × List CancelEv :=
  ({ active_toggles := s.active_toggles.map (fun p => (p.1, false)),
     recording_active := false,
     tray := TrayIconState.idle,
     overlay_visible := false },
   [CancelEv.unregisterCancelShortcut, CancelEv.cancelRecording,
    CancelEv.maybeUnloadModel])

/-! ## Cue/mute ordering (`actions.rs` 426-535)

`TranscribeAction::start` spawns background threads for the cue/mute
sequences; each thread's own event order is fixed by its code, and the
scheduler may interleave threads arbitrarily.  `Interleave` is the
two-list shuffle relation; a start-phase schedule is any interleaving of
the main flow with the spawned threads (a superset of the real
schedules, which further order each thread after its spawn point). -/

/-- Events of the start/stop flows relevant to cue/mute ordering. -/
inductive FlowEv
  | loadModel
  | trayRecording
  | overlayRecording
  | tryStartRec (ok : Bool)
  | startCueDone
  | muteApplied
  | readyCue
  | registerCancel
  | unregisterCancel
  | trayTranscribing
  | overlayTranscribing
  | muteRemoved
  | stopCue
deriving DecidableEq

/-- `zs` is an interleaving of `xs` and `ys`. -/
inductive Interleave : List FlowEv → List FlowEv → List FlowEv → Prop
  | nil : Interleave [] [] []
  | left {x xs ys zs} : Interleave xs ys zs → Interleave (x :: xs) ys (x :: zs)
  | right {y xs ys zs} : Interleave xs ys zs → Interleave xs (y :: ys) (y :: zs)

/-- The main flow of `TranscribeAction::start` (`actions.rs` 426-505):
model load, tray/overlay to recording, `try_start_recording`, and (on
success) the cancel-shortcut registration.  Identical for both
microphone modes. -/
def start_main_flow (ok : Bool) : List FlowEv :=
  [FlowEv.loadModel, FlowEv.trayRecording, FlowEv.overlayRecording,
   FlowEv.tryStartRec ok] ++ (if ok then [FlowEv.registerCancel] else [])

/-- The always-on-mode cue thread (`actions.rs` 454-457): play the start
cue to completion, then apply mute. -/
def cue_mute_thread : List FlowEv := [FlowEv.startCueDone, FlowEv.muteApplied]

/-- The always-on-mode ready-cue thread (`actions.rs` 462-467), spawned
only when recording started. -/
def ready_thread (ok : Bool) : List FlowEv :=
  if ok then [FlowEv.readyCue] else []

/-- The on-demand-mode delayed sequence (`actions.rs` 480-490), spawned
only when recording started: start cue (blocking), mute, ready cue. -/
def on_demand_thread (ok : Bool) : List FlowEv :=
  if ok then [FlowEv.startCueDone, FlowEv.muteApplied, FlowEv.readyCue] else []

/-- The schedules of the start phase: in always-on mode any interleaving
of the main flow with the cue/mute thread and the ready thread; in
on-demand mode any interleaving of the main flow with the delayed
sequence thread. -/
def start_schedule : Bool → Bool → List FlowEv → Prop
  | true, ok, tr =>
    ∃ m, Interleave (start_main_flow ok) cue_mute_thread m ∧
      Interleave m (ready_thread ok) tr
  | false, ok, tr => Interleave (start_main_flow ok) (on_demand_thread ok) tr

/-- The sequential prelude of `TranscribeAction::stop`
(`actions.rs` 507-535): unregister the cancel shortcut, (unless the
assistant audio route will supply its own transcription) tray/overlay to
transcribing, release mute, then dispatch the stop cue. -/
def stop_prelude (using_gemini_audio : Bool) : List FlowEv :=
  [FlowEv.unregisterCancel] ++
  (if using_gemini_audio then [] else [FlowEv.trayTranscribing, FlowEv.overlayTranscribing]) ++
  [FlowEv.muteRemoved, FlowEv.stopCue]

/-- A neutral stop environment: every oracle fails, every flag is off. -/
def baseStopEnv : StopEnv :=
  { settings_stop := {}, settings_audio_check := {}, settings_post := {},
    samples := none, screenshot_result := none,
    transcribe := fun _ => Except.error "engine unavailable",
    gemini_call := fun _ => Except.error "network",
    conv_history := [], prior_toggle := false,
    opencc := ⟨fun _ => none⟩,
    ppenv := { platform_macos_aarch64 := false, apple_available := false,
               apple_process := fun _ _ => Except.error "unavailable",
               llm_send_chat_completion := fun _ _ _ _ => Except.error "unavailable" } }

/-- Environment taking the direct assistant-audio route. -/
def envC6 : StopEnv :=
  { baseStopEnv with
    settings_audio_check := { gemini_enabled := true, gemini_api_key := "k",
                              gemini_send_audio := true, gemini_model := "m" },
    samples := some [1, 2] }

/-- Environment on the direct route whose binding was toggled on. -/
def envC1 : StopEnv := { envC6 with prior_toggle := true }

/-- Environment with a non-empty transcription, the assistant enabled on
the text path, and a failing remote call. -/
def envC2 : StopEnv :=
  { baseStopEnv with
    settings_post := { gemini_enabled := true, gemini_api_key := "k",
                       gemini_model := "m" },
    samples := some [0],
    transcribe := fun _ => Except.ok "hello" }

/-- Environment whose OpenCC construction succeeds with a marked
converter, for the C5 witness. -/
def openccWitnessEnv : OpenCCEnv :=
  ⟨fun config =>
    match config with
    | BuiltinConfig.tw2sp => some (fun s => s ++ "-simplified")
    | BuiltinConfig.s2twp => none⟩

/-! ## Theorems -/

theorem leadsWith_iff (needle : List Char) :
    ∀ hay : List Char, leadsWith hay needle = true ↔ ∃ rest, hay = needle ++ rest := by
  induction needle with
  | nil =>
    intro hay
    constructor
    · intro _; exact ⟨hay, rfl⟩
    · intro _; cases hay <;> rfl
  | cons n ns ih =>
    intro hay
    cases hay with
    | nil =>
      simp only [leadsWith, List.cons_append]
      constructor
      · intro h; cases h
      · rintro ⟨rest, h⟩; cases h
    | cons h hs =>
      simp only [leadsWith, Bool.and_eq_true, beq_iff_eq, ih hs, List.cons_append]
      constructor
      · rintro ⟨rfl, rest, rfl⟩; exact ⟨rest, rfl⟩
      · rintro ⟨rest, heq⟩
        injection heq with h1 h2
        exact ⟨h1, rest, h2⟩

theorem splitFirst_some_decomp :
    ∀ (hay needle a b : List Char), splitFirst hay needle = some (a, b) →
      hay = a ++ needle ++ b := by
  intro hay
  induction hay with
  | nil =>
    intro needle a b h
    simp only [splitFirst] at h
    by_cases hne : needle.isEmpty
    · rw [if_pos hne] at h
      injection h with h'
      injection h' with ha hb
      subst ha; subst hb
      cases needle with
      | nil => rfl
      | cons _ _ => simp [List.isEmpty] at hne
    · rw [if_neg hne] at h; cases h
  | cons x t ih =>
    intro needle a b h
    simp only [splitFirst] at h
    by_cases hl : leadsWith (x :: t) needle = true
    · rw [if_pos hl] at h
      injection h with h'
      injection h' with ha hb
      subst ha
      obtain ⟨rest, hres⟩ := (leadsWith_iff needle (x :: t)).mp hl
      rw [hres] at hb ⊢
      rw [List.drop_left] at hb
      subst hb
      rfl
    · rw [if_neg hl] at h
      cases hsf : splitFirst t needle with
      | none => rw [hsf] at h; cases h
      | some pr =>
        obtain ⟨a', b'⟩ := pr
        rw [hsf] at h
        injection h with h'
        injection h' with ha hb
        subst ha; subst hb
        have := ih needle a' b' hsf
        rw [this]
        rfl

theorem splitFirst_isSome_of_decomp :
    ∀ (p q hay needle : List Char), hay = p ++ needle ++ q →
      (splitFirst hay needle).isSome = true := by
  intro p
  induction p with
  | nil =>
    intro q hay needle h
    simp only [List.nil_append] at h
    subst h
    cases hne : needle with
    | nil =>
      cases q <;> simp [splitFirst, List.isEmpty, leadsWith]
    | cons n ns =>
      have hl : leadsWith ((n :: ns) ++ q) (n :: ns) = true :=
        (leadsWith_iff (n :: ns) ((n :: ns) ++ q)).mpr ⟨q, rfl⟩
      simp only [List.cons_append] at hl ⊢
      simp [splitFirst, hl]
  | cons x p' ih =>
    intro q hay needle h
    subst h
    simp only [List.cons_append]
    simp only [splitFirst]
    by_cases hl : leadsWith (x :: (p' ++ needle ++ q)) needle = true
    · rw [if_pos hl]; rfl
    · rw [if_neg hl]
      have := ih q (p' ++ needle ++ q) needle rfl
      cases hsf : splitFirst (p' ++ needle ++ q) needle with
      | none => rw [hsf] at this; cases this
      | some pr => cases pr; simp

theorem splitFirst_min :
    ∀ (hay needle a b : List Char), splitFirst hay needle = some (a, b) →
      ∀ p q, hay = p ++ needle ++ q → a.length ≤ p.length := by
  intro hay
  induction hay with
  | nil =>
    intro needle a b h p q _
    simp only [splitFirst] at h
    by_cases hne : needle.isEmpty
    · rw [if_pos hne] at h
      injection h with h'
      injection h' with ha _
      subst ha; exact Nat.zero_le _
    · rw [if_neg hne] at h; cases h
  | cons x t ih =>
    intro needle a b h p q hd
    simp only [splitFirst] at h
    by_cases hl : leadsWith (x :: t) needle = true
    · rw [if_pos hl] at h
      injection h with h'
      injection h' with ha _
      subst ha; exact Nat.zero_le _
    · rw [if_neg hl] at h
      cases hsf : splitFirst t needle with
      | none => rw [hsf] at h; cases h
      | some pr =>
        obtain ⟨a', b'⟩ := pr
        rw [hsf] at h
        injection h with h'
        injection h' with ha _
        subst ha
        cases p with
        | nil =>
          exfalso
          apply hl
          apply (leadsWith_iff needle (x :: t)).mpr
          exact ⟨q, by simpa using hd⟩
        | cons y p' =>
          simp only [List.cons_append] at hd
          injection hd with _ hd'
          have := ih needle a' b' hsf p' q hd'
          simpa using Nat.succ_le_succ this

theorem trimL_append_newline (l : List Char) :
    trimL (l ++ ['\n']) = trimL l := by
  unfold trimL trimRightL
  rw [List.reverse_append]
  rfl

theorem newline_not_mem_markerT : '\n' ∉ markerT := by
  decide

theorem markerRespDouble_eq : markerRespDouble = '\n' :: markerRespSingle := by
  decide

theorem markerRespSingle_head :
    ∃ tl, markerRespSingle = '\n' :: tl := ⟨"Response:".toList, by decide⟩

/-- If the first block `xs` of a concatenation does not contain the head
of `needle`, any occurrence of `needle` starts after `xs`. -/
theorem first_block_of_decomp :
    ∀ (xs ys a c nt : List Char) (n : Char),
      xs ++ ys = a ++ (n :: nt) ++ c → n ∉ xs → ∃ a₂, a = xs ++ a₂ := by
  intro xs
  induction xs with
  | nil => intro ys a c nt n _ _; exact ⟨a, rfl⟩
  | cons x xt ih =>
    intro ys a c nt n heq hmem
    cases a with
    | nil =>
      exfalso
      simp only [List.nil_append, List.cons_append] at heq
      injection heq with h1 _
      exact hmem (h1 ▸ List.mem_cons_self x xt)
    | cons a₀ a' =>
      simp only [List.cons_append] at heq
      injection heq with h1 h2
      have hnmem : n ∉ xt := fun hc => hmem (List.mem_cons_of_mem x hc)
      obtain ⟨a₂, ha⟩ := ih ys a' c nt n (by simpa using h2) hnmem
      exact ⟨a₂, by rw [h1, ha]; rfl⟩

/-- Shift a decomposition past a shorter first block: if `r = pre ++ z`
and `r = w ++ needle ++ v` with `pre` no longer than `w`, then `needle`
also occurs in `z` followed by the same tail `v`. -/
theorem decomp_shift (r pre z w v needle : List Char)
    (h1 : r = pre ++ z) (h2 : r = w ++ needle ++ v)
    (hlen : pre.length ≤ w.length) : ∃ p, z = p ++ needle ++ v := by
  have heq : pre ++ z = w ++ (needle ++ v) := by
    rw [← h1, h2]; simp [List.append_assoc]
  rcases List.append_eq_append_iff.mp heq with ⟨a', hw, hz⟩ | ⟨c', hpre, hv⟩
  · exact ⟨a', by rw [hz]; simp [List.append_assoc]⟩
  · have : c'.length = 0 := by
      have := congrArg List.length hpre
      simp at this
      omega
    have hc : c' = [] := List.length_eq_zero.mp this
    subst hc
    exact ⟨[], by simpa using hv.symm⟩

/-- A `Response:`-marker hit in the searched region always lies after the
leading `Transcription:` marker, because the marker contains no newline. -/
theorem marker_split (rest needle nt a c : List Char)
    (hn : needle = '\n' :: nt)
    (h : splitFirst (markerT ++ rest) needle = some (a, c)) :
    ∃ a₂, a = markerT ++ a₂ ∧ rest = a₂ ++ needle ++ c := by
  have hd := splitFirst_some_decomp _ _ _ _ h
  subst hn
  obtain ⟨a₂, ha⟩ :=
    first_block_of_decomp markerT rest a c nt '\n' hd newline_not_mem_markerT
  refine ⟨a₂, ha, ?_⟩
  rw [ha] at hd
  have heq : markerT ++ rest = markerT ++ (a₂ ++ ('\n' :: nt) ++ c) := by
    rw [hd]; simp [List.append_assoc]
  exact List.append_cancel_left heq

/-- C7: for every assistant reply received after sending audio with empty
text, the parser extracts a transcription exactly when the reply contains
the literal marker `Transcription:` followed, after a newline (the
single- and double-newline forms both contain `\nResponse:`), by the
literal marker `Response:`; in that case the transcription is the
(trimmed) text between the markers and the answer is the (trimmed) text
after `Response:`; when the markers are absent the entire reply is the
answer and no transcription is extracted. -/
theorem audio_reply_marker_extraction (r : List Char) :
    ((parse_audio_reply r).1.isSome = true ↔
      ∃ a b, r = a ++ markerT ++ b ∧ ∃ u v, b = u ++ markerRespSingle ++ v) ∧
    ((parse_audio_reply r).1 = none → (parse_audio_reply r).2 = r) ∧
    (∀ t ans, parse_audio_reply r = (some t, ans) →
      ∃ a b c, r = a ++ markerT ++ b ++ markerRespSingle ++ c ∧
        t = trimL b ∧ ans = trimL c) := by
  have hmain : ∀ t ans, parse_audio_reply r = (some t, ans) →
      ∃ a b c, r = a ++ markerT ++ b ++ markerRespSingle ++ c ∧
        t = trimL b ∧ ans = trimL c := by
    intro t ans h
    unfold parse_audio_reply at h
    cases hsf : splitFirst r markerT with
    | none => rw [hsf] at h; simp at h
    | some pr =>
      obtain ⟨pre, rest⟩ := pr
      rw [hsf] at h
      dsimp only at h
      have hdr := splitFirst_some_decomp r markerT pre rest hsf
      cases hd2 : splitFirst (markerT ++ rest) markerRespDouble with
      | some pr2 =>
        obtain ⟨a, c⟩ := pr2
        rw [hd2] at h
        dsimp only at h
        simp only [Prod.mk.injEq, Option.some.injEq] at h
        obtain ⟨h1, h2⟩ := h
        obtain ⟨a₂, ha, hrest⟩ :=
          marker_split rest markerRespDouble markerRespSingle a c markerRespDouble_eq hd2
        refine ⟨pre, a₂ ++ ['\n'], c, ?_, ?_, h2.symm⟩
        · rw [hdr, hrest, markerRespDouble_eq]
          simp [List.append_assoc]
        · rw [← h1, ha, List.drop_left, ← trimL_append_newline]
      | none =>
        rw [hd2] at h
        dsimp only at h
        cases hd1 : splitFirst (markerT ++ rest) markerRespSingle with
        | some pr1 =>
          obtain ⟨a, c⟩ := pr1
          rw [hd1] at h
          dsimp only at h
          simp only [Prod.mk.injEq, Option.some.injEq] at h
          obtain ⟨h1, h2⟩ := h
          obtain ⟨tl, htl⟩ := markerRespSingle_head
          obtain ⟨a₂, ha, hrest⟩ :=
            marker_split rest markerRespSingle tl a c htl hd1
          refine ⟨pre, a₂, c, ?_, ?_, h2.symm⟩
          · rw [hdr, hrest]
            simp [List.append_assoc]
          · rw [← h1, ha, List.drop_left]
        | none => rw [hd1] at h; simp at h
  refine ⟨⟨?_, ?_⟩, ?_, hmain⟩
  · intro hiss
    cases hpr : parse_audio_reply r with
    | mk o ans =>
      cases o with
      | none => rw [hpr] at hiss; simp at hiss
      | some t =>
        obtain ⟨a, b, c, hd, _, _⟩ := hmain t ans hpr
        exact ⟨a, b ++ markerRespSingle ++ c, by rw [hd]; simp [List.append_assoc],
          b, c, rfl⟩
  · rintro ⟨a, b, hr, u, v, hb⟩
    have h1 : (splitFirst r markerT).isSome = true :=
      splitFirst_isSome_of_decomp a b r markerT hr
    cases hsf : splitFirst r markerT with
    | none => rw [hsf] at h1; cases h1
    | some pr =>
      obtain ⟨pre, rest⟩ := pr
      have hdr := splitFirst_some_decomp r markerT pre rest hsf
      have hmin := splitFirst_min r markerT pre rest hsf a b hr
      have hr2 : r = (a ++ markerT ++ u) ++ markerRespSingle ++ v := by
        rw [hr, hb]; simp [List.append_assoc]
      have hlen : pre.length ≤ (a ++ markerT ++ u).length := by
        simp only [List.length_append]
        omega
      obtain ⟨p, hp⟩ := decomp_shift r pre (markerT ++ rest) (a ++ markerT ++ u) v
        markerRespSingle (by rw [hdr]; simp [List.append_assoc]) hr2 hlen
      unfold parse_audio_reply
      rw [hsf]
      dsimp only
      cases hd2 : splitFirst (markerT ++ rest) markerRespDouble with
      | some pr2 => obtain ⟨a', c'⟩ := pr2; rfl
      | none =>
        dsimp only
        have hs1 : (splitFirst (markerT ++ rest) markerRespSingle).isSome = true :=
          splitFirst_isSome_of_decomp p v _ _ hp
        cases hd1 : splitFirst (markerT ++ rest) markerRespSingle with
        | none => rw [hd1] at hs1; cases hs1
        | some pr1 => obtain ⟨a', c'⟩ := pr1; rfl
  · intro hnone
    unfold parse_audio_reply at hnone ⊢
    cases hsf : splitFirst r markerT with
    | none => rfl
    | some pr =>
      obtain ⟨pre, rest⟩ := pr
      rw [hsf] at hnone
      dsimp only at hnone ⊢
      cases hd2 : splitFirst (markerT ++ rest) markerRespDouble with
      | some pr2 =>
        obtain ⟨a', c'⟩ := pr2
        rw [hd2] at hnone
        simp at hnone
      | none =>
        rw [hd2] at hnone
        dsimp only at hnone ⊢
        cases hd1 : splitFirst (markerT ++ rest) markerRespSingle with
        | some pr1 =>
          obtain ⟨a', c'⟩ := pr1
          rw [hd1] at hnone
          simp at hnone
        | none => rfl

theorem interleave_count {xs ys zs : List FlowEv} (h : Interleave xs ys zs)
    (e : FlowEv) : zs.count e = xs.count e + ys.count e := by
  induction h with
  | nil => simp
  | left _ ih =>
    simp only [List.count_cons, ih]
    split <;> omega
  | right _ ih =>
    simp only [List.count_cons, ih]
    split <;> omega

theorem interleave_sub_left {xs ys zs : List FlowEv} (h : Interleave xs ys zs) :
    List.Sublist xs zs := by
  induction h with
  | nil => exact List.Sublist.refl []
  | left _ ih => exact ih.cons₂ _
  | right _ ih => exact ih.cons _

theorem interleave_sub_right {xs ys zs : List FlowEv} (h : Interleave xs ys zs) :
    List.Sublist ys zs := by
  induction h with
  | nil => exact List.Sublist.refl []
  | left _ ih => exact ih.cons _
  | right _ ih => exact ih.cons₂ _

theorem interleave_append (xs ys : List FlowEv) : Interleave xs ys (xs ++ ys) := by
  induction xs with
  | nil =>
    induction ys with
    | nil => exact Interleave.nil
    | cons y ys ih => exact Interleave.right ih
  | cons x xs ih => exact Interleave.left ih

theorem pair_sub_decomp {a b : FlowEv} :
    ∀ {tr : List FlowEv}, List.Sublist [a, b] tr → ∃ u v w, tr = u ++ a :: v ++ b :: w := by
  intro tr h
  induction tr with
  | nil => exact absurd (List.sublist_nil.mp h) (by simp)
  | cons x tr ih =>
    cases h with
    | cons _ h' =>
      obtain ⟨u, v, w, rfl⟩ := ih h'
      exact ⟨x :: u, v, w, rfl⟩
    | cons₂ _ h' =>
      have hb : b ∈ tr := List.singleton_sublist.mp h'
      obtain ⟨s, t, rfl⟩ := List.append_of_mem hb
      exact ⟨[], s, t, rfl⟩

theorem count_one_decomp_eq {b : FlowEv} :
    ∀ (p : List FlowEv) {q p' q' : List FlowEv},
      p ++ b :: q = p' ++ b :: q' → (p ++ b :: q).count b = 1 → p = p' := by
  intro p
  induction p with
  | nil =>
    intro q p' q' heq hcount
    cases p' with
    | nil => rfl
    | cons x p'' =>
      exfalso
      simp only [List.nil_append, List.cons_append] at heq
      injection heq with h1 h2
      subst h1
      simp only [List.nil_append, List.count_cons_self] at hcount
      have hq : q.count b = 0 := by omega
      have : b ∈ q := h2 ▸ (by simp : b ∈ p'' ++ b :: q')
      exact (List.count_eq_zero.mp hq) this
  | cons x p₂ ih =>
    intro q p' q' heq hcount
    cases p' with
    | nil =>
      exfalso
      simp only [List.nil_append, List.cons_append] at heq
      injection heq with h1 h2
      subst h1
      simp only [List.cons_append, List.count_cons_self] at hcount
      have hq : (p₂ ++ x :: q).count x = 0 := by
        have := hcount
        omega
      have : x ∈ p₂ ++ x :: q := by simp
      exact (List.count_eq_zero.mp hq) this
    | cons x' p₃ =>
      simp only [List.cons_append] at heq
      injection heq with h1 h2
      subst h1
      have hcount' : (p₂ ++ b :: q).count b = 1 := by
        rcases Decidable.em (x = b) with hx | hx
        · exfalso
          subst hx
          simp only [List.cons_append, List.count_cons_self] at hcount
          have : x ∈ p₂ ++ x :: q := by simp
          have hpos : 0 < (p₂ ++ x :: q).count x := List.count_pos_iff.mpr this
          omega
        · have := hcount
          simp only [List.cons_append, List.count_cons] at this
          simpa [hx] using this
      rw [ih h2 hcount']

theorem mem_of_unique_decomp {tr u v w : List FlowEv} {a b : FlowEv}
    (hd : tr = u ++ a :: v ++ b :: w) (hc : tr.count b = 1) :
    ∀ p q, tr = p ++ b :: q → a ∈ p := by
  intro p q hpq
  have hd' : tr = (u ++ a :: v) ++ b :: w := by
    rw [hd]
  have heq : (u ++ a :: v) ++ b :: w = p ++ b :: q := by rw [← hd', hpq]
  have hcnt : ((u ++ a :: v) ++ b :: w).count b = 1 := by rw [← hd']; exact hc
  have := count_one_decomp_eq (u ++ a :: v) heq hcnt
  rw [← this]
  simp

/-- C4: within every session, in every schedule of the start phase each
mute engagement is preceded by the completed start cue, and in the stop
prelude the mute release precedes the stop-cue dispatch — an ordering
property over all interleavings, not a timing-exact one. -/
theorem cue_mute_ordering (always_on ok : Bool) (tr : List FlowEv)
    (h : start_schedule always_on ok tr) (g : Bool) :
    (∀ p q, tr = p ++ FlowEv.muteApplied :: q → FlowEv.startCueDone ∈ p) ∧
    (∀ p q, stop_prelude g = p ++ FlowEv.stopCue :: q → FlowEv.muteRemoved ∈ p) := by
  constructor
  · intro p q hpq
    cases always_on with
    | true =>
      obtain ⟨m, h1, h2⟩ := h
      have hsub : List.Sublist [FlowEv.startCueDone, FlowEv.muteApplied] tr :=
        (interleave_sub_right h1).trans (interleave_sub_left h2)
      have hcount : tr.count FlowEv.muteApplied = 1 := by
        rw [interleave_count h2, interleave_count h1]
        cases ok <;> decide
      obtain ⟨u, v, w, hd⟩ := pair_sub_decomp hsub
      exact mem_of_unique_decomp hd hcount p q hpq
    | false =>
      cases ok with
      | false =>
        exfalso
        have hcount : tr.count FlowEv.muteApplied = 0 := by
          rw [interleave_count h]
          decide
        have : FlowEv.muteApplied ∈ tr := by rw [hpq]; simp
        exact (List.count_eq_zero.mp hcount) this
      | true =>
        have hsub : List.Sublist [FlowEv.startCueDone, FlowEv.muteApplied] tr := by
          refine List.Sublist.trans ?_ (interleave_sub_right h)
          have heq : [FlowEv.startCueDone, FlowEv.muteApplied] ++ [FlowEv.readyCue] =
              on_demand_thread true := by decide
          exact heq ▸ List.sublist_append_left _ _
        have hcount : tr.count FlowEv.muteApplied = 1 := by
          rw [interleave_count h]
          decide
        obtain ⟨u, v, w, hd⟩ := pair_sub_decomp hsub
        exact mem_of_unique_decomp hd hcount p q hpq
  · intro p q hpq
    cases g with
    | false =>
      have hd : stop_prelude false =
          [FlowEv.unregisterCancel, FlowEv.trayTranscribing, FlowEv.overlayTranscribing] ++
          FlowEv.muteRemoved :: [] ++ FlowEv.stopCue :: [] := by decide
      exact mem_of_unique_decomp hd (by decide) p q hpq
    | true =>
      have hd : stop_prelude true =
          [FlowEv.unregisterCancel] ++ FlowEv.muteRemoved :: [] ++ FlowEv.stopCue :: [] := by
        decide
      exact mem_of_unique_decomp hd (by decide) p q hpq

/-- Exhaustive branch characterization of the stop continuation: its
outcome is exactly one of the nine records of the translation, keyed by
the sample availability, the two assistant flags, the transcription
result and the remote-call result. -/
theorem stop_branches (env : StopEnv) (sh : String) :
    (env.samples = none ∧
      transcribe_stop_continuation env sh =
        { conv_final := env.conv_history, toggle_entry := false }) ∨
    (∃ smp, env.samples = some smp ∧
      ((using_gemini_audio_flag env.settings_audio_check = true ∧
        ((∃ resp, env.gemini_call (direct_args env sh smp) = Except.ok resp ∧
          transcribe_stop_continuation env sh =
            { asked := some (direct_args env sh smp), transcribe_invoked := false,
              history_saved := some ("", none, none), pasted := none,
              popup := some (format_qa (resp.transcription.getD "Audio transcription")
                resp.answer),
              conv_final := add_model_message
                (add_user_message (get_history env.conv_history)
                  (resp.transcription.getD "Audio transcription")) resp.answer,
              toggle_entry := env.prior_toggle }) ∨
         (∃ e, env.gemini_call (direct_args env sh smp) = Except.error e ∧
          transcribe_stop_continuation env sh =
            { asked := some (direct_args env sh smp), transcribe_invoked := false,
              history_saved := some ("", none, none), pasted := none, popup := none,
              conv_final := get_history env.conv_history,
              toggle_entry := env.prior_toggle }))) ∨
       (using_gemini_audio_flag env.settings_audio_check = false ∧
        ((∃ e, env.transcribe smp = Except.error e ∧
          transcribe_stop_continuation env sh =
            { transcribe_invoked := true, conv_final := env.conv_history,
              toggle_entry := false }) ∨
         (∃ t, env.transcribe smp = Except.ok t ∧ t.isEmpty = true ∧
          transcribe_stop_continuation env sh =
            { transcribe_invoked := true, conv_final := env.conv_history,
              toggle_entry := false }) ∨
         (∃ t, env.transcribe smp = Except.ok t ∧ t.isEmpty = false ∧
          ((gemini_enabled_flag env.settings_post = true ∧
            env.settings_post.gemini_send_audio = true ∧
            ((∃ resp, env.gemini_call (audio_args env sh smp) = Except.ok resp ∧
              transcribe_stop_continuation env sh =
                { asked := some (audio_args env sh smp), transcribe_invoked := true,
                  history_saved := some (t,
                    (post_process_chain env.opencc env.ppenv env.settings_post t).2.1,
                    (post_process_chain env.opencc env.ppenv env.settings_post t).2.2),
                  pasted := none,
                  popup := some (format_qa (resp.transcription.getD t) resp.answer),
                  conv_final := add_model_message
                    (add_user_message (get_history env.conv_history)
                      (resp.transcription.getD t)) resp.answer,
                  toggle_entry := false }) ∨
             (∃ e, env.gemini_call (audio_args env sh smp) = Except.error e ∧
              transcribe_stop_continuation env sh =
                { asked := some (audio_args env sh smp), transcribe_invoked := true,
                  history_saved := some (t,
                    (post_process_chain env.opencc env.ppenv env.settings_post t).2.1,
                    (post_process_chain env.opencc env.ppenv env.settings_post t).2.2),
                  pasted := none, popup := none,
                  conv_final := get_history env.conv_history,
                  toggle_entry := false }))) ∨
           (gemini_enabled_flag env.settings_post = true ∧
            env.settings_post.gemini_send_audio = false ∧
            ((∃ resp, env.gemini_call (text_args env sh t) = Except.ok resp ∧
              transcribe_stop_continuation env sh =
                { asked := some (text_args env sh t), transcribe_invoked := true,
                  history_saved := some (t,
                    (post_process_chain env.opencc env.ppenv env.settings_post t).2.1,
                    (post_process_chain env.opencc env.ppenv env.settings_post t).2.2),
                  pasted := none,
                  popup := some (format_qa t resp.answer),
                  conv_final := add_model_message
                    (add_user_message (get_history env.conv_history) t) resp.answer,
                  toggle_entry := false }) ∨
             (∃ e, env.gemini_call (text_args env sh t) = Except.error e ∧
              transcribe_stop_continuation env sh =
                { asked := some (text_args env sh t), transcribe_invoked := true,
                  history_saved := some (t,
                    (post_process_chain env.opencc env.ppenv env.settings_post t).2.1,
                    (post_process_chain env.opencc env.ppenv env.settings_post t).2.2),
                  pasted := none, popup := none,
                  conv_final := add_user_message (get_history env.conv_history) t,
                  toggle_entry := false }))) ∨
           (gemini_enabled_flag env.settings_post = false ∧
            transcribe_stop_continuation env sh =
              { transcribe_invoked := true,
                history_saved := some (t,
                  (post_process_chain env.opencc env.ppenv env.settings_post t).2.1,
                  (post_process_chain env.opencc env.ppenv env.settings_post t).2.2),
                pasted := some (post_process_chain env.opencc env.ppenv env.settings_post t).1,
                popup := none, conv_final := env.conv_history,
                toggle_entry := false }))))))) := by
  unfold transcribe_stop_continuation
  cases hs : env.samples with
  | none => exact Or.inl ⟨rfl, rfl⟩
  | some smp =>
    refine Or.inr ⟨smp, rfl, ?_⟩
    by_cases hflag : using_gemini_audio_flag env.settings_audio_check = true
    · refine Or.inl ⟨hflag, ?_⟩
      cases hc : env.gemini_call (direct_args env sh smp) with
      | ok resp => exact Or.inl ⟨resp, rfl, by simp [hflag, hc]⟩
      | error e => exact Or.inr ⟨e, rfl, by simp [hflag, hc]⟩
    · refine Or.inr ⟨Bool.eq_false_iff.mpr hflag, ?_⟩
      cases ht : env.transcribe smp with
      | error e => exact Or.inl ⟨e, rfl, by simp [hflag, ht]⟩
      | ok t =>
        by_cases hempty : t.isEmpty = true
        · exact Or.inr (Or.inl ⟨t, rfl, hempty, by simp [hflag, ht, hempty]⟩)
        · refine Or.inr (Or.inr ⟨t, rfl, Bool.eq_false_iff.mpr hempty, ?_⟩)
          by_cases hge : gemini_enabled_flag env.settings_post = true
          · by_cases hsa : env.settings_post.gemini_send_audio = true
            · refine Or.inl ⟨hge, hsa, ?_⟩
              cases hc : env.gemini_call (audio_args env sh smp) with
              | ok resp => exact Or.inl ⟨resp, rfl, by simp [hflag, ht, hempty, hge, hsa, hc]⟩
              | error e => exact Or.inr ⟨e, rfl, by simp [hflag, ht, hempty, hge, hsa, hc]⟩
            · refine Or.inr (Or.inl ⟨hge, Bool.eq_false_iff.mpr hsa, ?_⟩)
              cases hc : env.gemini_call (text_args env sh t) with
              | ok resp => exact Or.inl ⟨resp, rfl, by simp [hflag, ht, hempty, hge, hsa, hc]⟩
              | error e => exact Or.inr ⟨e, rfl, by simp [hflag, ht, hempty, hge, hsa, hc]⟩
          · exact Or.inr (Or.inr ⟨Bool.eq_false_iff.mpr hge,
              by simp [hflag, ht, hempty, hge]⟩)

/-- C6: when the session stops with assistant audio routing active
(re-read settings: assistant enabled, API key present, send-audio
selected), the raw sample buffer — with the optional screenshot and the
conversation history — is sent to AI Assistant Dispatch with empty text,
the local Transcription Engine is never invoked, and a history entry is
persisted with an empty transcript. -/
theorem direct_audio_route_behaviour (env : StopEnv) (sh : String) (smp : List Int)
    (hs : env.samples = some smp)
    (hflag : using_gemini_audio_flag env.settings_audio_check = true) :
    (transcribe_stop_continuation env sh).transcribe_invoked = false ∧
    (transcribe_stop_continuation env sh).history_saved = some ("", none, none) ∧
    (transcribe_stop_continuation env sh).asked = some (direct_args env sh smp) ∧
    (direct_args env sh smp).audio = some smp ∧
    (direct_args env sh smp).text = "" ∧
    (direct_args env sh smp).images = (stop_screenshot env sh).map (fun img => [img]) ∧
    (direct_args env sh smp).history = some (get_history env.conv_history) := by
  rcases stop_branches env sh with ⟨hn, _⟩ | ⟨smp', hs', hbr⟩
  · rw [hs] at hn; exact Option.noConfusion hn
  · rw [hs] at hs'
    injection hs' with hsmp
    subst hsmp
    rcases hbr with ⟨_, hd⟩ | ⟨hflag', _⟩
    · rcases hd with ⟨resp, _, ho⟩ | ⟨e, _, ho⟩ <;> rw [ho] <;>
        exact ⟨rfl, rfl, rfl, rfl, rfl, rfl, rfl⟩
    · rw [hflag] at hflag'
      exact Bool.noConfusion hflag'

theorem direct_audio_route_behaviour_witness :
    (transcribe_stop_continuation envC6 "alt+space").transcribe_invoked = false ∧
    (transcribe_stop_continuation envC6 "alt+space").history_saved = some ("", none, none) ∧
    (direct_args envC6 "alt+space" [1, 2]).audio = some [1, 2] :=
  ⟨(direct_audio_route_behaviour envC6 "alt+space" [1, 2] rfl rfl).1,
   (direct_audio_route_behaviour envC6 "alt+space" [1, 2] rfl rfl).2.1,
   (direct_audio_route_behaviour envC6 "alt+space" [1, 2] rfl rfl).2.2.2.1⟩

/-- C1 (code evaluation at the failing input): on the direct
assistant-audio route the spawned continuation returns before the
toggle-clearing statement, so a toggled-on binding keeps its `true`
entry — the claimed invariant (entry is false after stop completes)
fails on this route. -/
theorem direct_audio_route_leaves_toggle_set :
    using_gemini_audio_flag envC1.settings_audio_check = true ∧
    envC1.prior_toggle = true ∧
    (transcribe_stop_continuation envC1 "alt+space").toggle_entry = true :=
  ⟨rfl, rfl, rfl⟩

/-- C2 counterexample: a completed session with non-empty transcription
"hello", assistant enabled, remote call failing — neither paste delivery
nor assistant popup delivery occurs, refuting "exactly one ... occurs". -/
theorem delivery_neither_on_assistant_failure :
    envC2.transcribe [0] = Except.ok "hello" ∧
    gemini_enabled_flag envC2.settings_post = true ∧
    envC2.gemini_call (text_args envC2 "alt+space" "hello") = Except.error "network" ∧
    (transcribe_stop_continuation envC2 "alt+space").pasted = none ∧
    (transcribe_stop_continuation envC2 "alt+space").popup = none :=
  ⟨rfl, rfl, rfl, rfl, rfl⟩

/-- C2 (amended): for every completed session with non-empty
transcription, at most one of paste delivery and popup delivery occurs:
paste exactly when the assistant is off (disabled or keyless), popup
exactly when the assistant is on and the remote call succeeds; neither
occurs when the transcription is empty, when transcription fails, or
when the assistant is on but the remote call fails. -/
theorem delivery_exclusive_amended (env : StopEnv) (sh : String) (smp : List Int)
    (hs : env.samples = some smp)
    (hnd : using_gemini_audio_flag env.settings_audio_check = false) :
    (∀ t, env.transcribe smp = Except.ok t → t.isEmpty = false →
      (((transcribe_stop_continuation env sh).pasted.isSome = true ↔
          gemini_enabled_flag env.settings_post = false) ∧
       ((transcribe_stop_continuation env sh).popup.isSome = true ↔
          (gemini_enabled_flag env.settings_post = true ∧
           ∃ args resp, (transcribe_stop_continuation env sh).asked = some args ∧
             env.gemini_call args = Except.ok resp)) ∧
       ¬((transcribe_stop_continuation env sh).pasted.isSome = true ∧
          (transcribe_stop_continuation env sh).popup.isSome = true))) ∧
    (∀ t, env.transcribe smp = Except.ok t → t.isEmpty = true →
      (transcribe_stop_continuation env sh).pasted = none ∧
      (transcribe_stop_continuation env sh).popup = none) ∧
    (∀ e, env.transcribe smp = Except.error e →
      (transcribe_stop_continuation env sh).pasted = none ∧
      (transcribe_stop_continuation env sh).popup = none) := by
  rcases stop_branches env sh with ⟨hn, _⟩ | ⟨smp', hs', hbr⟩
  · rw [hs] at hn; exact Option.noConfusion hn
  rw [hs] at hs'
  injection hs' with hsmp
  subst hsmp
  rcases hbr with ⟨hflag', _⟩ | ⟨_, hrest⟩
  · rw [hnd] at hflag'; exact Bool.noConfusion hflag'
  rcases hrest with ⟨e, hte, ho⟩ | ⟨t', hte, hemp, ho⟩ | ⟨t', hte, hemp, hsub⟩
  · refine ⟨?_, ?_, ?_⟩
    · intro t htok _
      rw [hte] at htok; exact Except.noConfusion htok
    · intro t htok _
      rw [hte] at htok; exact Except.noConfusion htok
    · intro e' _
      rw [ho]; exact ⟨rfl, rfl⟩
  · refine ⟨?_, ?_, ?_⟩
    · intro t htok hne
      rw [hte] at htok
      injection htok with htt
      subst htt
      rw [hemp] at hne
      exact Bool.noConfusion hne
    · intro t _ _
      rw [ho]; exact ⟨rfl, rfl⟩
    · intro e' hterr
      rw [hte] at hterr; exact Except.noConfusion hterr
  · refine ⟨?_, ?_, ?_⟩
    · intro t htok _
      rw [hte] at htok
      injection htok with htt
      subst htt
      rcases hsub with ⟨hge, hsa, hcall⟩ | ⟨hge, hsa, hcall⟩ | ⟨hge, ho⟩
      · rcases hcall with ⟨resp, hc, ho⟩ | ⟨e, hc, ho⟩
        · rw [ho]
          refine ⟨by simp [hge], ?_, by simp⟩
          simp only [Option.isSome_some, true_iff]
          exact ⟨hge, audio_args env sh smp, resp, rfl, hc⟩
        · rw [ho]
          refine ⟨by simp [hge], ?_, by simp⟩
          simp only [Option.isSome_none, Bool.false_eq_true, false_iff]
          rintro ⟨-, args, resp, ha, hok⟩
          injection ha with ha
          subst ha
          rw [hok] at hc
          exact Except.noConfusion hc
      · rcases hcall with ⟨resp, hc, ho⟩ | ⟨e, hc, ho⟩
        · rw [ho]
          refine ⟨by simp [hge], ?_, by simp⟩
          simp only [Option.isSome_some, true_iff]
          exact ⟨hge, text_args env sh t', resp, rfl, hc⟩
        · rw [ho]
          refine ⟨by simp [hge], ?_, by simp⟩
          simp only [Option.isSome_none, Bool.false_eq_true, false_iff]
          rintro ⟨-, args, resp, ha, hok⟩
          injection ha with ha
          subst ha
          rw [hok] at hc
          exact Except.noConfusion hc
      · rw [ho]
        refine ⟨by simp [hge], ?_, by simp⟩
        simp only [Option.isSome_none, Bool.false_eq_true, false_iff]
        rintro ⟨hge', -⟩
        rw [hge] at hge'
        exact Bool.noConfusion hge'
    · intro t htok hemp'
      rw [hte] at htok
      injection htok with htt
      subst htt
      rw [hemp] at hemp'
      exact Bool.noConfusion hemp'
    · intro e' hterr
      rw [hte] at hterr; exact Except.noConfusion hterr

theorem delivery_exclusive_amended_witness :
    (transcribe_stop_continuation envC2 "alt+space").popup.isSome = false ∧
    (transcribe_stop_continuation envC2 "alt+space").pasted.isSome = false := by
  have h := (delivery_exclusive_amended envC2 "alt+space" [0] rfl rfl).1
    "hello" rfl rfl
  constructor
  · have := h.2.1
    by_cases hp : (transcribe_stop_continuation envC2 "alt+space").popup.isSome = true
    · exfalso
      obtain ⟨-, args, resp, -, hok⟩ := this.mp hp
      exact Except.noConfusion (by rw [← hok]; rfl : Except.error "network" = Except.ok resp)
    · exact Bool.eq_false_iff.mpr hp
  · have := h.1
    by_cases hp : (transcribe_stop_continuation envC2 "alt+space").pasted.isSome = true
    · exact absurd (this.mp hp)
        (by simp [envC2, gemini_enabled_flag, baseStopEnv]; decide)
    · exact Bool.eq_false_iff.mpr hp

/-- C3 counterexample: on the text path the user message is appended to
the Conversation Context before the remote call, so a failing call does
not leave the context unchanged. -/
theorem conversation_user_kept_on_failure :
    envC2.gemini_call (text_args envC2 "alt+space" "hello") = Except.error "network" ∧
    (transcribe_stop_continuation envC2 "alt+space").conv_final =
      add_user_message (get_history envC2.conv_history) "hello" ∧
    (transcribe_stop_continuation envC2 "alt+space").conv_final ≠
      get_history envC2.conv_history := by
  refine ⟨rfl, rfl, ?_⟩
  intro h
  exact List.noConfusion h

/-- C3 (amended): for every session exchange with the assistant, a
failure of the remote call appends no model message — in the audio
exchanges the Conversation Context is left unchanged, while in the text
exchange the user message is appended before the call and therefore
remains even on failure — and a success appends the user message and
then the model message, in that order. -/
theorem conversation_append_discipline (env : StopEnv) (sh : String) :
    ∀ args, (transcribe_stop_continuation env sh).asked = some args →
      ((∀ e, env.gemini_call args = Except.error e →
        ((args.audio.isSome = true →
           (transcribe_stop_continuation env sh).conv_final =
             get_history env.conv_history) ∧
         (args.audio = none →
           (transcribe_stop_continuation env sh).conv_final =
             add_user_message (get_history env.conv_history) args.text))) ∧
       (∀ resp, env.gemini_call args = Except.ok resp →
         ∃ q, (transcribe_stop_continuation env sh).conv_final =
           add_model_message (add_user_message (get_history env.conv_history) q)
             resp.answer)) := by
  intro args hasked
  rcases stop_branches env sh with ⟨_, ho⟩ | ⟨smp, _, hbr⟩
  · rw [ho] at hasked; exact Option.noConfusion hasked
  rcases hbr with ⟨_, ⟨resp, hc, ho⟩ | ⟨e, hc, ho⟩⟩ | ⟨_, hrest⟩
  · rw [ho] at hasked ⊢
    injection hasked with hargs
    subst hargs
    constructor
    · intro e' hce
      rw [hce] at hc; exact Except.noConfusion hc
    · intro resp' hcr
      rw [hcr] at hc
      injection hc with hr
      subst hr
      exact ⟨resp'.transcription.getD "Audio transcription", rfl⟩
  · rw [ho] at hasked ⊢
    injection hasked with hargs
    subst hargs
    constructor
    · intro e' _
      exact ⟨fun _ => rfl, fun habs => by simp [direct_args] at habs⟩
    · intro resp' hcr
      rw [hcr] at hc; exact Except.noConfusion hc
  rcases hrest with ⟨e, _, ho⟩ | ⟨t, _, _, ho⟩ | ⟨t, _, _, hsub⟩
  · rw [ho] at hasked; exact Option.noConfusion hasked
  · rw [ho] at hasked; exact Option.noConfusion hasked
  rcases hsub with ⟨_, _, hcall⟩ | ⟨_, _, hcall⟩ | ⟨_, ho⟩
  · rcases hcall with ⟨resp, hc, ho⟩ | ⟨e, hc, ho⟩
    · rw [ho] at hasked ⊢
      injection hasked with hargs
      subst hargs
      constructor
      · intro e' hce
        rw [hce] at hc; exact Except.noConfusion hc
      · intro resp' hcr
        rw [hcr] at hc
        injection hc with hr
        subst hr
        exact ⟨resp'.transcription.getD t, rfl⟩
    · rw [ho] at hasked ⊢
      injection hasked with hargs
      subst hargs
      constructor
      · intro e' _
        exact ⟨fun _ => rfl, fun habs => by simp [audio_args] at habs⟩
      · intro resp' hcr
        rw [hcr] at hc; exact Except.noConfusion hc
  · rcases hcall with ⟨resp, hc, ho⟩ | ⟨e, hc, ho⟩
    · rw [ho] at hasked ⊢
      injection hasked with hargs
      subst hargs
      constructor
      · intro e' hce
        rw [hce] at hc; exact Except.noConfusion hc
      · intro resp' hcr
        rw [hcr] at hc
        injection hc with hr
        subst hr
        exact ⟨t, rfl⟩
    · rw [ho] at hasked ⊢
      injection hasked with hargs
      subst hargs
      constructor
      · intro e' _
        refine ⟨fun habs => ?_, fun _ => rfl⟩
        simp [text_args] at habs
      · intro resp' hcr
        rw [hcr] at hc; exact Except.noConfusion hc
  · rw [ho] at hasked; exact Option.noConfusion hasked

theorem conversation_append_discipline_witness :
    (transcribe_stop_continuation envC2 "alt+space").conv_final =
      add_user_message (get_history envC2.conv_history) "hello" := by
  have h := (conversation_append_discipline envC2 "alt+space"
    (text_args envC2 "alt+space" "hello") rfl).1 "network" rfl
  exact h.2 rfl

theorem cue_mute_ordering_witness :
    FlowEv.startCueDone ∈
      [FlowEv.loadModel, FlowEv.trayRecording, FlowEv.overlayRecording,
       FlowEv.tryStartRec true, FlowEv.registerCancel, FlowEv.startCueDone] ∧
    FlowEv.muteRemoved ∈
      [FlowEv.unregisterCancel, FlowEv.trayTranscribing, FlowEv.overlayTranscribing,
       FlowEv.muteRemoved] := by
  have h := cue_mute_ordering false true
    (start_main_flow true ++ on_demand_thread true) (interleave_append _ _) false
  exact ⟨h.1 [FlowEv.loadModel, FlowEv.trayRecording, FlowEv.overlayRecording,
      FlowEv.tryStartRec true, FlowEv.registerCancel, FlowEv.startCueDone]
      [FlowEv.readyCue] (by decide),
    h.2 [FlowEv.unregisterCancel, FlowEv.trayTranscribing, FlowEv.overlayTranscribing,
      FlowEv.muteRemoved] [] (by decide)⟩

/-- C9: invoking the global cancellation entrypoint from any state sets
every Toggle State Table entry to false, cancels any ongoing recording,
and resets the tray icon and overlay to idle. -/
theorem cancel_resets_state (s : AppState) :
    (∀ p ∈ (cancel_current_operation s).1.active_toggles, p.2 = false) ∧
    (cancel_current_operation s).1.recording_active = false ∧
    (cancel_current_operation s).1.tray = TrayIconState.idle ∧
    (cancel_current_operation s).1.overlay_visible = false ∧
    CancelEv.cancelRecording ∈ (cancel_current_operation s).2 := by
  refine ⟨?_, rfl, rfl, rfl, by simp [cancel_current_operation]⟩
  intro p hp
  simp only [cancel_current_operation, List.mem_map] at hp
  obtain ⟨q, -, hq⟩ := hp
  rw [← hq]

theorem cancel_resets_state_witness :
    (cancel_current_operation
      ⟨[("b1", true), ("b2", false)], true, TrayIconState.recording, true⟩).1.tray =
        TrayIconState.idle ∧
    (cancel_current_operation
      ⟨[("b1", true), ("b2", false)], true, TrayIconState.recording, true⟩).1.recording_active =
        false :=
  ⟨(cancel_resets_state
      ⟨[("b1", true), ("b2", false)], true, TrayIconState.recording, true⟩).2.2.1,
   (cancel_resets_state
      ⟨[("b1", true), ("b2", false)], true, TrayIconState.recording, true⟩).2.1⟩

/-- C10: calling the assistant dispatch function with an empty API key
returns the error "Gemini API key is not configured" immediately: no
network event (IP lookup or POST) is issued, so no state is touched. -/
theorem ask_gemini_empty_key_guard (env : AskEnv) (text model : String)
    (context_images : Option (List (List Nat)))
    (context_audio : Option (List Int))
    (sample_rate : Option Nat)
    (conversation_history : Option (List ConvMsg)) :
    ask_gemini env text model "" context_images context_audio sample_rate
      conversation_history =
      (Except.error "Gemini API key is not configured", []) := rfl

/-- The assistant rewrite step runs with result `p` exactly when every
precondition of `maybe_post_process_transcription` holds and the provider
call succeeds with `p`. -/
theorem maybe_post_process_eq_some_iff (penv : PostProcessEnv)
    (settings : AppSettings) (t p : String) :
    maybe_post_process_transcription penv settings t = some p ↔
      (settings.post_process_enabled = true ∧
       ∃ provider, settings.post_process_provider = some provider ∧
         ((assocGet settings.post_process_models provider.id).getD "").trim.isEmpty = false ∧
         ∃ pid promptEntry,
           settings.post_process_selected_prompt_id = some pid ∧
           settings.post_process_prompts.find? (fun pr => pr.id == pid) = some promptEntry ∧
           promptEntry.prompt.trim.isEmpty = false ∧
           provider_call penv settings provider
             ((assocGet settings.post_process_models provider.id).getD "")
             (promptEntry.prompt.replace "${output}" t) = some p) := by
  constructor
  · intro hp
    unfold maybe_post_process_transcription at hp
    by_cases he : settings.post_process_enabled = true
    · rw [he] at hp
      simp only [Bool.not_true, Bool.false_eq_true, if_false] at hp
      cases hprov : settings.post_process_provider with
      | none => rw [hprov] at hp; exact Option.noConfusion hp
      | some provider =>
        rw [hprov] at hp
        dsimp only at hp
        by_cases hmodel :
            ((assocGet settings.post_process_models provider.id).getD "").trim.isEmpty = true
        · rw [if_pos hmodel] at hp; exact Option.noConfusion hp
        · rw [if_neg hmodel] at hp
          cases hpid : settings.post_process_selected_prompt_id with
          | none => rw [hpid] at hp; exact Option.noConfusion hp
          | some pid =>
            rw [hpid] at hp
            dsimp only at hp
            cases hfind : settings.post_process_prompts.find? (fun pr => pr.id == pid) with
            | none => rw [hfind] at hp; exact Option.noConfusion hp
            | some promptEntry =>
              rw [hfind] at hp
              dsimp only at hp
              by_cases hprompt : promptEntry.prompt.trim.isEmpty = true
              · rw [if_pos hprompt] at hp; exact Option.noConfusion hp
              · rw [if_neg hprompt] at hp
                exact ⟨he, provider, rfl, Bool.eq_false_iff.mpr hmodel,
                  pid, promptEntry, rfl, hfind, Bool.eq_false_iff.mpr hprompt, hp⟩
    · exfalso
      have he' : settings.post_process_enabled = false := Bool.eq_false_iff.mpr he
      rw [he'] at hp
      simp only [Bool.not_false, if_true] at hp
      exact Option.noConfusion hp
  · rintro ⟨he, provider, hprov, hmodel, pid, promptEntry, hpid, hfind, hprompt, hcall⟩
    unfold maybe_post_process_transcription
    rw [he, hprov, hpid]
    dsimp only
    simp only [Bool.not_true, Bool.false_eq_true, if_false, hmodel, hfind]
    simp only [hprompt, Bool.false_eq_true, if_false]
    exact hcall

/-- C5: for every non-empty transcription, the Post-Processing Chain
produces the script-variant conversion exactly when the selected language
is `zh-Hans` or `zh-Hant` (converting with the opposite-to-target rule
table, `Tw2sp` resp. `S2twp`) and the converter is constructed; otherwise
the assistant rewrite exactly when post-processing is enabled with a
selected provider, a non-empty configured model, a selected prompt with
non-empty body, and the provider call succeeds; otherwise the
transcription unchanged — and whenever the conversion applies the rewrite
step never also runs, so at most one step changes the text. -/
theorem post_process_chain_spec (oenv : OpenCCEnv) (penv : PostProcessEnv)
    (settings : AppSettings) (t : String) :
    (settings.selected_language = "zh-Hans" →
      maybe_convert_chinese_variant oenv settings t =
        (oenv.from_config BuiltinConfig.tw2sp).map (fun f => f t)) ∧
    (settings.selected_language = "zh-Hant" →
      maybe_convert_chinese_variant oenv settings t =
        (oenv.from_config BuiltinConfig.s2twp).map (fun f => f t)) ∧
    (settings.selected_language ≠ "zh-Hans" → settings.selected_language ≠ "zh-Hant" →
      maybe_convert_chinese_variant oenv settings t = none) ∧
    (∀ c, maybe_convert_chinese_variant oenv settings t = some c →
      (post_process_chain oenv penv settings t).1 = c) ∧
    (maybe_convert_chinese_variant oenv settings t = none →
      ∀ p, maybe_post_process_transcription penv settings t = some p →
        (post_process_chain oenv penv settings t).1 = p) ∧
    (maybe_convert_chinese_variant oenv settings t = none →
      maybe_post_process_transcription penv settings t = none →
      (post_process_chain oenv penv settings t).1 = t) ∧
    (∀ p, maybe_post_process_transcription penv settings t = some p ↔
      (settings.post_process_enabled = true ∧
       ∃ provider, settings.post_process_provider = some provider ∧
         ((assocGet settings.post_process_models provider.id).getD "").trim.isEmpty = false ∧
         ∃ pid promptEntry,
           settings.post_process_selected_prompt_id = some pid ∧
           settings.post_process_prompts.find? (fun pr => pr.id == pid) = some promptEntry ∧
           promptEntry.prompt.trim.isEmpty = false ∧
           provider_call penv settings provider
             ((assocGet settings.post_process_models provider.id).getD "")
             (promptEntry.prompt.replace "${output}" t) = some p)) := by
  refine ⟨?_, ?_, ?_, ?_, ?_, ?_, fun p => maybe_post_process_eq_some_iff penv settings t p⟩
  · intro h
    unfold maybe_convert_chinese_variant
    rw [h]
    have h1 : ("zh-Hans" == "zh-Hans") = true := by decide
    have h2 : ("zh-Hans" == "zh-Hant") = false := by decide
    simp only [h1, h2, Bool.not_true, Bool.not_false, Bool.false_and,
      Bool.false_eq_true, if_false, if_true]
    cases hc : oenv.from_config BuiltinConfig.tw2sp <;> simp [hc]
  · intro h
    unfold maybe_convert_chinese_variant
    rw [h]
    have h1 : ("zh-Hant" == "zh-Hans") = false := by decide
    have h2 : ("zh-Hant" == "zh-Hant") = true := by decide
    simp only [h1, h2, Bool.not_true, Bool.not_false, Bool.and_false,
      Bool.false_eq_true, if_false]
    cases hc : oenv.from_config BuiltinConfig.s2twp <;> simp [hc]
  · intro h1 h2
    unfold maybe_convert_chinese_variant
    have hb1 : (settings.selected_language == "zh-Hans") = false := by
      simpa using h1
    have hb2 : (settings.selected_language == "zh-Hant") = false := by
      simpa using h2
    rw [hb1, hb2]
    rfl
  · intro c hc
    unfold post_process_chain
    rw [hc]
  · intro h0 p hp
    unfold post_process_chain
    rw [h0, hp]
  · intro h0 hp
    unfold post_process_chain
    rw [h0, hp]

theorem post_process_chain_spec_witness :
    maybe_convert_chinese_variant openccWitnessEnv
        { selected_language := "zh-Hans" } "你好" = some "你好-simplified" ∧
    (post_process_chain openccWitnessEnv baseStopEnv.ppenv
        { selected_language := "zh-Hans" } "你好").1 = "你好-simplified" := by
  have h := post_process_chain_spec openccWitnessEnv baseStopEnv.ppenv
    { selected_language := "zh-Hans" } "你好"
  have hc : maybe_convert_chinese_variant openccWitnessEnv
      { selected_language := "zh-Hans" } "你好" = some "你好-simplified" := by
    rw [h.1 rfl]; rfl
  exact ⟨hc, h.2.2.2.1 "你好-simplified" hc⟩

/-- C8: in precise-window mode every rung failure falls through to the
full-display capture — geometry probe failure, a bounds list that is not
four integers, inverted or degenerate bounds, a failed region-capture
process, or an unreadable output file — non-precise platforms always
take full display, and when the full-display fallback itself fails the
result is `none` (no screenshot), never an error. -/
theorem context_capture_fallback_ladder (env : CaptureEnv) (settings : AppSettings) :
    (env.window_bounds = none →
      capture_active_window_macos env = capture_full_screen_screenshot env) ∧
    (∀ bounds, env.window_bounds = some bounds → bounds.length ≠ 4 →
      capture_active_window_macos env = capture_full_screen_screenshot env) ∧
    (∀ left top right bottom,
      env.window_bounds = some [left, top, right, bottom] →
      (right ≤ left ∨ bottom ≤ top) →
      capture_active_window_macos env = capture_full_screen_screenshot env) ∧
    (∀ left top right bottom,
      env.window_bounds = some [left, top, right, bottom] →
      ¬(right ≤ left ∨ bottom ≤ top) →
      env.region_capture_ok left top (right - left) (bottom - top) = false →
      capture_active_window_macos env = capture_full_screen_screenshot env) ∧
    (∀ left top right bottom,
      env.window_bounds = some [left, top, right, bottom] →
      ¬(right ≤ left ∨ bottom ≤ top) →
      env.region_capture_ok left top (right - left) (bottom - top) = true →
      env.region_file = none →
      capture_active_window_macos env = capture_full_screen_screenshot env) ∧
    (settings.screenshot_mode = ScreenshotMode.activeWindow →
      capture_screenshot env settings false = capture_full_screen_screenshot env) ∧
    (capture_full_screen_screenshot env = none → env.window_bounds = none →
      capture_active_window_macos env = none) := by
  refine ⟨?_, ?_, ?_, ?_, ?_, ?_, ?_⟩
  · intro h
    unfold capture_active_window_macos
    rw [h]
  · intro bounds h hlen
    unfold capture_active_window_macos
    rw [h]
    rcases bounds with _ | ⟨a, _ | ⟨b, _ | ⟨c, _ | ⟨d, _ | ⟨e, rest⟩⟩⟩⟩⟩
    · rfl
    · rfl
    · rfl
    · rfl
    · exact (hlen rfl).elim
    · rfl
  · intro left top right bottom h hdeg
    unfold capture_active_window_macos
    rw [h]
    simp [hdeg]
  · intro left top right bottom h hdeg hreg
    unfold capture_active_window_macos
    rw [h]
    simp [hdeg, hreg]
  · intro left top right bottom h hdeg hreg hfile
    unfold capture_active_window_macos
    rw [h]
    simp [hdeg, hreg, hfile]
  · intro h
    unfold capture_screenshot
    rw [h]
    rfl
  · intro hfull h
    unfold capture_active_window_macos
    rw [h, hfull]

theorem context_capture_fallback_ladder_witness :
    capture_active_window_macos
      { screens := none, window_bounds := some [0, 0, 0, 0],
        region_capture_ok := fun _ _ _ _ => false, region_file := none } = none := by
  have h := (context_capture_fallback_ladder
    { screens := none, window_bounds := some [0, 0, 0, 0],
      region_capture_ok := fun _ _ _ _ => false, region_file := none } {}).2.2.1
    0 0 0 0 rfl (Or.inl le_rfl)
  rw [h]
  rfl

theorem audio_reply_marker_extraction_witness :
    ∃ a b c,
      "Transcription: hi\n\nResponse: there".toList =
        a ++ markerT ++ b ++ markerRespSingle ++ c ∧
      "hi".toList = trimL b ∧ "there".toList = trimL c :=
  (audio_reply_marker_extraction "Transcription: hi\n\nResponse: there".toList).2.2
    "hi".toList "there".toList (by decide)

end HandyGemini
